import Mathlib

/-!
Verification development for the Mac Clipper clipboard-history utility
(`script.py`).  The definitions below are a shallow embedding of the
program's core logic: the history store with its pinned-aware eviction
policy (`ClipboardManager.handle_clipboard_change`, `toggle_pin`,
`save_pinned`), the polling clipboard watcher with its deduplication
(`ClipboardWatcher.run`), the global hotkey callback and its retry loop
(`GlobalHotkeyListener`), the configuration loader (`load_config`) and the
visibility-toggle debounce (`ClipboardManager.toggle_visibility`).
-/

/-- A clipboard history entry, mirroring the Python dicts
`{"type": ..., "data": ..., "time": ...}` emitted by the watcher; the
`pinned` flag models `item.get("pinned", False)` (absent key = `false`). -/
structure Clip where
  ctype : String
  data : String
  time : String
  pinned : Bool
deriving DecidableEq, Repr

/-- `[item for item in l if item.get("pinned", False)]`. -/
def pinnedOf (l : List Clip) : List Clip := l.filter (fun c => c.pinned)

/-- `[item for item in l if not item.get("pinned", False)]`. -/
def unpinnedOf (l : List Clip) : List Clip := l.filter (fun c => !c.pinned)

/-- The eviction loop of `handle_clipboard_change`:
`for item in reversed(unpinned): if len(self.items) > self.max_items:
self.items.remove(item)`.  `List.erase` matches Python's `list.remove`
(remove the first element equal to the argument; here removal is attempted
only for elements known to be present). -/
def evictLoop (maxItems : Nat) : List Clip → List Clip → List Clip
  | [], l => l
  | r :: rest, l =>
      if l.length > maxItems then evictLoop maxItems rest (l.erase r) else l

/-- The capacity check and eviction block of `handle_clipboard_change`,
applied to the list after the new clip has been inserted at the front.
The subtraction `self.max_items - len(pinned)` is Python integer
arithmetic, hence the cast to `Int`. -/
def evictIfNeeded (maxItems : Nat) (items1 : List Clip) : List Clip :=
  if items1.length > maxItems then
    if ((unpinnedOf items1).length : Int) >
        (maxItems : Int) - ((pinnedOf items1).length : Int) then
      evictLoop maxItems (unpinnedOf items1).reverse items1
    else items1
  else items1

/-- `ClipboardManager.handle_clipboard_change`: drop empty payloads, drop
duplicates (equal `"data"` anywhere in the history), otherwise insert at
index 0 and run the eviction block. -/
def handle_clipboard_change (maxItems : Nat) (items : List Clip) (clip : Clip) :
    List Clip :=
  if clip.data = "" then items
  else if items.any (fun i => i.data = clip.data) then items
  else evictIfNeeded maxItems (clip :: items)

/-- History-store state together with the log of `save_pinned` calls: each
entry of `saves` is one pinned subset written to `~/pinned_clips.json`. -/
structure HistSt where
  items : List Clip
  saves : List (List Clip)
deriving DecidableEq, Repr

/-- `ClipboardManager.save_pinned`: serialize the pinned subset. -/
def save_pinned (st : HistSt) : HistSt :=
  ⟨st.items, st.saves ++ [pinnedOf st.items]⟩

/-- The loop body of `ClipboardManager.toggle_pin`: flip the `pinned` flag
of the first entry whose `"data"` matches, then `break`. -/
def flipFirst (data : String) : List Clip → List Clip
  | [] => []
  | c :: rest =>
      if c.data = data then { c with pinned := !c.pinned } :: rest
      else c :: flipFirst data rest

/-- `ClipboardManager.toggle_pin`: flip the first matching entry, then
persist the pinned subset (persistence runs unconditionally). -/
def toggle_pin (data : String) (st : HistSt) : HistSt :=
  save_pinned ⟨flipFirst data st.items, st.saves⟩

/-- Standard base64 alphabet, as used by Python's `base64.b64encode`. -/
def base64Alphabet : List Char :=
  [ 'A','B','C','D','E','F','G','H','I','J','K','L','M','N','O','P','Q','R',
    'S','T','U','V','W','X','Y','Z','a','b','c','d','e','f','g','h','i','j',
    'k','l','m','n','o','p','q','r','s','t','u','v','w','x','y','z','0','1',
    '2','3','4','5','6','7','8','9','+','/' ]

/-- One base64 output character for a 6-bit value. -/
def b64Char (n : Nat) : Char := base64Alphabet.getD n 'A'

/-- `base64.b64encode(bytes).decode()` on a byte list (values `< 256`). -/
def b64encode : List Nat → String
  | [] => ""
  | [a] =>
      String.mk [b64Char (a / 4), b64Char (a % 4 * 16), '=', '=']
  | [a, b] =>
      String.mk [b64Char (a / 4), b64Char (a % 4 * 16 + b / 16),
                 b64Char (b % 16 * 4), '=']
  | a :: b :: c :: rest =>
      String.mk [b64Char (a / 4), b64Char (a % 4 * 16 + b / 16),
                 b64Char (b % 16 * 4 + c / 64), b64Char (c % 64)]
        ++ b64encode rest

/-- One sample of the system clipboard as seen by `ClipboardWatcher.run`:
`image = some bytes` models a non-null `clipboard.image()` whose
`imageToBuffer` PNG encoding produced exactly `bytes` (empty when the
encoder wrote nothing); `text` is `clipboard.text()`; `time` is the
`datetime.now().strftime("%H:%M")` timestamp at this poll cycle. -/
structure Snapshot where
  image : Option (List Nat)
  text : String
  time : String

/-- The change event dict `{"type": ..., "data": ..., "time": ...}`
emitted by `ClipboardWatcher.changed`. -/
structure EmittedEvent where
  etype : String
  data : String
  time : String
deriving DecidableEq, Repr

/-- Python's `str.strip()`: drop leading and trailing whitespace. -/
def pyStrip (s : String) : String :=
  String.mk
    (((s.data.dropWhile Char.isWhitespace).reverse.dropWhile
        Char.isWhitespace).reverse)

/-- Python's `str.startswith(pre)`. -/
def strStartsWith (s pre : String) : Bool := pre.data.isPrefixOf s.data

/-- The per-cycle item computation of `ClipboardWatcher.run`: a non-null
image becomes `"image:" + b64`, else non-empty stripped text becomes
`"text:" + text`, else the empty string. -/
def sampleItem (s : Snapshot) : String :=
  match s.image with
  | some bytes => "image:" ++ b64encode bytes
  | none =>
      if pyStrip s.text = "" then "" else "text:" ++ pyStrip s.text

/-- One iteration of the `ClipboardWatcher.run` loop: emit a change event
iff the item is non-empty and differs from `last_content`, updating
`last_content` on emission.  Returns the new `last_content` and the
emitted event, if any. -/
def watcherStep (last : String) (s : Snapshot) : String × Option EmittedEvent :=
  if sampleItem s ≠ "" ∧ sampleItem s ≠ last then
    (sampleItem s,
     some ⟨if strStartsWith (sampleItem s) ("image:") then "image" else "text",
           sampleItem s, s.time⟩)
  else (last, none)

/-- The watcher loop run over a finite list of clipboard samples, returning
the final `last_content` and the list of emitted change events. -/
def watcherRun (last : String) : List Snapshot → String × List EmittedEvent
  | [] => (last, [])
  | s :: rest =>
      ((watcherRun (watcherStep last s).1 rest).1,
       (watcherStep last s).2.toList ++ (watcherRun (watcherStep last s).1 rest).2)

/-- CoreGraphics `kCGEventKeyDown`. -/
def kCGEventKeyDown : Nat := 10

/-- CoreGraphics `kCGEventFlagMaskShift` (`0x20000`). -/
def kCGEventFlagMaskShift : Nat := 0x20000

/-- CoreGraphics `kCGEventFlagMaskControl` (`0x40000`). -/
def kCGEventFlagMaskControl : Nat := 0x40000

/-- CoreGraphics `kCGEventFlagMaskAlternate` (`0x80000`). -/
def kCGEventFlagMaskAlternate : Nat := 0x80000

/-- CoreGraphics `kCGEventFlagMaskCommand` (`0x100000`). -/
def kCGEventFlagMaskCommand : Nat := 0x100000

/-- `GlobalHotkeyListener.key_map`. -/
def key_map : List (String × Nat) :=
  [("A", 0), ("B", 11), ("C", 8), ("D", 2), ("E", 14), ("F", 3), ("G", 5),
   ("H", 4), ("I", 34), ("J", 38), ("K", 40), ("L", 37), ("M", 46), ("N", 45),
   ("O", 31), ("P", 35), ("Q", 12), ("R", 15), ("S", 1), ("T", 17), ("U", 32),
   ("V", 9), ("W", 13), ("X", 7), ("Y", 16), ("Z", 6)]

/-- `GlobalHotkeyListener.modifier_to_quartz` (unknown names map to 0). -/
def modifier_to_quartz (modifier : String) : Nat :=
  if modifier = "command" then kCGEventFlagMaskCommand
  else if modifier = "option" then kCGEventFlagMaskAlternate
  else if modifier = "control" then kCGEventFlagMaskControl
  else if modifier = "shift" then kCGEventFlagMaskShift
  else 0

/-- The hotkey section of the configuration: `config["hotkey"]`. -/
structure Hotkey where
  key : String
  modifiers : List String

/-- `self.key_map.get(self.config["hotkey"]["key"], 9)`. -/
def configKeycode (cfg : Hotkey) : Nat := (key_map.lookup cfg.key).getD 9

/-- The `modifiers_mask` accumulation loop of `hotkey_callback`. -/
def configMask (cfg : Hotkey) : Nat :=
  cfg.modifiers.foldl (fun m s => m ||| modifier_to_quartz s) 0

/-- An observed Quartz keyboard event: its type, the
`kCGKeyboardEventKeycode` field, and its `CGEventGetFlags` mask. -/
structure KeyEvent where
  etype : Nat
  keycode : Nat
  flags : Nat
deriving DecidableEq, Repr

/-- `GlobalHotkeyListener.hotkey_callback`: returns whether `activated`
was emitted, and the event returned to the system (`none` = suppressed,
`some ev` = passed through unmodified). -/
def hotkey_callback (cfg : Hotkey) (ev : KeyEvent) : Bool × Option KeyEvent :=
  if ev.etype = kCGEventKeyDown ∧ ev.keycode = configKeycode cfg ∧
      ev.flags &&& configMask cfg = configMask cfg then
    (true, none)
  else (false, some ev)

/-- Observable steps of the `GlobalHotkeyListener.run` retry loop. -/
inductive HkEvent where
  | attempt (n : Nat)
  | installed
  | sleepTen
  | fatalPermissionDenied
deriving DecidableEq, Repr

/-- The retry loop of `GlobalHotkeyListener.run` with `running` held true:
`tapOk n` tells whether the `n`-th `CGEventTapCreate` call (1-based)
succeeds.  On failure the code increments `retry_count`; if it exceeds 10
it reports the fatal permission error and stops, otherwise it sleeps 10
seconds and retries.  The first argument of the recursion is fuel (the
loop terminates within 11 attempts, so any fuel ≥ 11 is exact). -/
def hotkeyRetry (tapOk : Nat → Bool) : Nat → Nat → List HkEvent
  | 0, _ => []
  | fuel + 1, retryCount =>
      let n := retryCount + 1
      if tapOk n then [HkEvent.attempt n, HkEvent.installed]
      else if n > 10 then [HkEvent.attempt n, HkEvent.fatalPermissionDenied]
      else HkEvent.attempt n :: HkEvent.sleepTen :: hotkeyRetry tapOk fuel n

/-- A JSON value, for the configuration file. -/
inductive JVal where
  | jstr : String → JVal
  | jnum : Int → JVal
  | jbool : Bool → JVal
  | jarr : List JVal → JVal
  | jobj : List (String × JVal) → JVal

/-- Python's `{**d, **c}` on dicts with distinct keys: the keys of `d` in
order, each taking `c`'s value when `c` also binds it, followed by the
keys of `c` absent from `d`, in `c`'s order. -/
def pyDictMerge (d c : List (String × JVal)) : List (String × JVal) :=
  d.map (fun kv =>
      match c.lookup kv.1 with
      | some v => (kv.1, v)
      | none => kv)
    ++ c.filter (fun kv => (d.lookup kv.1).isNone)

/-- The `default_config` dict of `load_config`. -/
def default_config : List (String × JVal) :=
  [("hotkey", JVal.jobj
      [("key", JVal.jstr "V"),
       ("modifiers", JVal.jarr [JVal.jstr "command", JVal.jstr "option"])]),
   ("max_items", JVal.jnum 50),
   ("run_at_login", JVal.jbool true),
   ("theme", JVal.jstr "system")]

/-- `load_config`: `none` models `FileNotFoundError` / `JSONDecodeError`
(defaults returned unchanged); `some c` models a parsed JSON object, which
is merged over the defaults with `{**default_config, **config}`. -/
def load_config : Option (List (String × JVal)) → List (String × JVal)
  | some c => pyDictMerge default_config c
  | none => default_config

/-- Projection used to inspect the nested hotkey object of a loaded
configuration: `cfg["hotkey"][field]` when present. -/
def hotkeyField (cfg : List (String × JVal)) (field : String) : Option JVal :=
  match cfg.lookup "hotkey" with
  | some (JVal.jobj h) => h.lookup field
  | _ => none

/-- The debounce window of `toggle_visibility`: `0.20` seconds. -/
def debounceWindow : ℚ := 1 / 5

/-- The state read and written by `ClipboardManager.toggle_visibility`:
`self.last_toggle_time` (seconds, as returned by `time()`) and the
window's visibility. -/
structure VisState where
  last_toggle_time : ℚ
  visible : Bool
deriving DecidableEq, Repr

/-- `ClipboardManager.toggle_visibility` at wall-clock time `now`:
activations within the debounce window of the last accepted one are
dropped; otherwise the timestamp is recorded and visibility flips. -/
def toggle_visibility (now : ℚ) (st : VisState) : VisState :=
  if now - st.last_toggle_time < debounceWindow then st
  else ⟨now, !st.visible⟩

/-- Sample clips used for concrete instantiations of the theorems. -/
def clipTextA : Clip := ⟨"text", "text:a", "10:00", false⟩

/-- A second sample text clip. -/
def clipTextB : Clip := ⟨"text", "text:b", "10:01", false⟩

/-- A pinned sample clip. -/
def clipPinP : Clip := ⟨"text", "text:p", "09:00", true⟩

/-- Another pinned sample clip. -/
def clipPinQ : Clip := ⟨"text", "text:q", "09:01", true⟩

theorem take_append_left_of_le {α : Type} (l₁ l₂ : List α) (n : Nat)
    (h : n ≤ l₁.length) : (l₁ ++ l₂).take n = l₁.take n := by
  induction l₁ generalizing n with
  | nil =>
      have : n = 0 := Nat.le_zero.mp h
      subst this
      rfl
  | cons a l ih =>
      cases n with
      | zero => rfl
      | succ m =>
          simp only [List.cons_append, List.take_succ_cons]
          rw [ih m (Nat.le_of_succ_le_succ h)]

theorem pinned_add_unpinned_length (l : List Clip) :
    (pinnedOf l).length + (unpinnedOf l).length = l.length := by
  induction l with
  | nil => rfl
  | cons c rest ih =>
      cases h : c.pinned <;>
        simp [pinnedOf, unpinnedOf, List.filter_cons, h] at ih ⊢ <;> omega

theorem evictLoop_sublist (maxItems : Nat) (rl : List Clip) :
    ∀ l, (evictLoop maxItems rl l).Sublist l := by
  induction rl with
  | nil => intro l; exact List.Sublist.refl l
  | cons r rest ih =>
      intro l
      simp only [evictLoop]
      split
      · exact (ih (l.erase r)).trans (List.erase_sublist r l)
      · exact List.Sublist.refl l

theorem pinnedOf_erase (r : Clip) (hr : r.pinned = false) :
    ∀ l : List Clip, pinnedOf (l.erase r) = pinnedOf l := by
  intro l
  induction l with
  | nil => rfl
  | cons c rest ih =>
      by_cases hc : c = r
      · subst hc
        rw [List.erase_cons_head]
        simp [pinnedOf, List.filter_cons, hr]
      · rw [List.erase_cons_tail (by simpa using hc)]
        cases h : c.pinned <;> simp [pinnedOf, List.filter_cons, h] at ih ⊢ <;>
          exact ih

theorem evictLoop_pinnedOf (maxItems : Nat) (rl : List Clip) :
    ∀ l, (∀ r ∈ rl, r.pinned = false) →
      pinnedOf (evictLoop maxItems rl l) = pinnedOf l := by
  induction rl with
  | nil => intro l _; rfl
  | cons r rest ih =>
      intro l h
      simp only [evictLoop]
      split
      · rw [ih (l.erase r) (fun x hx => h x (List.mem_cons_of_mem r hx)),
            pinnedOf_erase r (h r (List.mem_cons_self r rest)) l]
      · rfl

theorem evictLoop_length (maxItems : Nat) (rl : List Clip) :
    ∀ l, rl.Nodup → (∀ r ∈ rl, r ∈ l) →
      (evictLoop maxItems rl l).length =
        Nat.max (l.length - rl.length) (Nat.min l.length maxItems) := by
  induction rl with
  | nil =>
      intro l _ _
      simp only [evictLoop, List.length_nil, Nat.max_def, Nat.min_def]
      split_ifs <;> omega
  | cons r rest ih =>
      intro l hnd hmem
      simp only [evictLoop]
      split
      · rename_i hlen
        have hrl : r ∈ l := hmem r (List.mem_cons_self r rest)
        have hlen' : (l.erase r).length = l.length - 1 :=
          List.length_erase_of_mem hrl
        have hnd' : rest.Nodup := (List.nodup_cons.mp hnd).2
        have hrnot : r ∉ rest := (List.nodup_cons.mp hnd).1
        have hmem' : ∀ x ∈ rest, x ∈ l.erase r := by
          intro x hx
          have hne : x ≠ r := fun h => hrnot (h ▸ hx)
          exact (List.mem_erase_of_ne hne).mpr (hmem x (List.mem_cons_of_mem r hx))
        rw [ih (l.erase r) hnd' hmem', hlen']
        simp only [List.length_cons, Nat.max_def, Nat.min_def]
        split_ifs <;> omega
      · rename_i hlen
        simp only [List.length_cons, Nat.max_def, Nat.min_def]
        split_ifs <;> omega

theorem filter_erase_of_pred (p : Clip → Bool) (r : Clip) (hr : p r = true) :
    ∀ l : List Clip, (l.erase r).filter p = (l.filter p).erase r := by
  intro l
  induction l with
  | nil => rfl
  | cons c rest ih =>
      by_cases hc : c = r
      · subst hc
        rw [List.erase_cons_head, List.filter_cons, if_pos (by simpa using hr),
            List.erase_cons_head]
      · rw [List.erase_cons_tail (by simpa using hc), List.filter_cons,
            List.filter_cons]
        by_cases h : p c = true
        · rw [if_pos h, if_pos h, List.erase_cons_tail (by simpa using hc), ih]
        · rw [if_neg h, if_neg h]
          exact ih

theorem evictLoop_unpinned_take (maxItems : Nat) (rl : List Clip) :
    ∀ l, l.Nodup → unpinnedOf l = rl.reverse →
      ∃ k, k ≤ rl.length ∧
        unpinnedOf (evictLoop maxItems rl l) = rl.reverse.take k := by
  induction rl with
  | nil =>
      intro l _ h
      exact ⟨0, Nat.le_refl 0, by simpa [evictLoop] using h⟩
  | cons r rest ih =>
      intro l hnd hu
      simp only [evictLoop]
      split
      · have hu' : unpinnedOf l = rest.reverse ++ [r] := by
          simpa [List.reverse_cons] using hu
        have hrmem : r ∈ unpinnedOf l := by rw [hu']; simp
        have hrunp : (fun c : Clip => !c.pinned) r = true :=
          (List.mem_filter.mp hrmem).2
        have hnodupu : (unpinnedOf l).Nodup :=
          hnd.filter (fun c : Clip => !c.pinned)
        have hrnot : r ∉ rest.reverse := by
          rw [hu'] at hnodupu
          intro hmem
          exact (List.nodup_append.mp hnodupu).2.2 hmem (by simp)
        have hfe : unpinnedOf (l.erase r) = (unpinnedOf l).erase r :=
          filter_erase_of_pred (fun c : Clip => !c.pinned) r hrunp l
        have h1 : unpinnedOf (l.erase r) = rest.reverse := by
          rw [hfe, hu', List.erase_append_right _ hrnot, List.erase_cons_head,
              List.append_nil]
        obtain ⟨k, hk, hres⟩ := ih (l.erase r) (hnd.erase r) h1
        refine ⟨k, Nat.le_succ_of_le hk, ?_⟩
        rw [hres, List.reverse_cons,
            take_append_left_of_le rest.reverse [r] k (by simpa using hk)]
      · refine ⟨(r :: rest).length, Nat.le_refl _, ?_⟩
        rw [hu, ← List.length_reverse (r :: rest), List.take_length]

theorem watcherStep_emit (last : String) (s : Snapshot)
    (h : sampleItem s ≠ "" ∧ sampleItem s ≠ last) :
    watcherStep last s =
      (sampleItem s,
       some ⟨if strStartsWith (sampleItem s) ("image:") then "image" else "text",
             sampleItem s, s.time⟩) := by
  unfold watcherStep
  rw [if_pos h]

theorem watcherStep_skip (last : String) (s : Snapshot)
    (h : ¬(sampleItem s ≠ "" ∧ sampleItem s ≠ last)) :
    watcherStep last s = (last, none) := by
  unfold watcherStep
  rw [if_neg h]

theorem watcherRun_cons (last : String) (s : Snapshot) (rest : List Snapshot) :
    watcherRun last (s :: rest) =
      ((watcherRun (watcherStep last s).1 rest).1,
       (watcherStep last s).2.toList ++
         (watcherRun (watcherStep last s).1 rest).2) := rfl

theorem watcherRun_chain (samples : List Snapshot) :
    ∀ last : String,
      List.Chain' (fun a b => a.data ≠ b.data) (watcherRun last samples).2 ∧
      (∀ e, (watcherRun last samples).2.head? = some e → e.data ≠ last) := by
  induction samples with
  | nil =>
      intro last
      refine ⟨List.chain'_nil, ?_⟩
      intro e h
      simp [watcherRun] at h
  | cons s rest ih =>
      intro last
      by_cases hc : sampleItem s ≠ "" ∧ sampleItem s ≠ last
      · have hrun : (watcherRun last (s :: rest)).2 =
            (⟨if strStartsWith (sampleItem s) ("image:") then "image" else "text",
              sampleItem s, s.time⟩ : EmittedEvent) ::
              (watcherRun (sampleItem s) rest).2 := by
          rw [watcherRun_cons, watcherStep_emit last s hc]
          rfl
        rw [hrun]
        obtain ⟨ihc, ihh⟩ := ih (sampleItem s)
        refine ⟨List.chain'_cons'.mpr ⟨?_, ihc⟩, ?_⟩
        · intro y hy
          exact fun hdata => ihh y hy hdata.symm
        · intro e he
          rw [List.head?_cons, Option.some.injEq] at he
          rw [← he]
          exact hc.2
      · have hrun : (watcherRun last (s :: rest)).2 = (watcherRun last rest).2 := by
          rw [watcherRun_cons, watcherStep_skip last s hc]
          rfl
        rw [hrun]
        exact ih last

theorem land_eq_iff_all_bits (f m : Nat) :
    f &&& m = m ↔ ∀ i, m.testBit i = true → f.testBit i = true := by
  constructor
  · intro h i hm
    have ht := congrArg (fun x => x.testBit i) h
    simp only [Nat.testBit_land] at ht
    rw [hm] at ht
    simpa using ht
  · intro h
    apply Nat.eq_of_testBit_eq
    intro i
    rw [Nat.testBit_land]
    cases hm : m.testBit i with
    | false => simp
    | true => simp [h i hm]

theorem lookup_merge_map (c : List (String × JVal)) :
    ∀ (d : List (String × JVal)) (k : String),
      (d.map (fun kv =>
        match c.lookup kv.1 with
        | some v => (kv.1, v)
        | none => kv)).lookup k =
      match d.lookup k with
      | some v => some ((c.lookup k).getD v)
      | none => none := by
  intro d
  induction d with
  | nil => intro k; rfl
  | cons kv d' ih =>
      intro k
      obtain ⟨k₀, v₀⟩ := kv
      cases hc : c.lookup k₀ with
      | some w =>
          simp only [List.map_cons, hc]
          rw [List.lookup_cons, List.lookup_cons]
          cases hk : k == k₀ with
          | true =>
              have hkk : k = k₀ := eq_of_beq hk
              subst hkk
              simp [hc]
          | false => simpa using ih k
      | none =>
          simp only [List.map_cons, hc]
          rw [List.lookup_cons, List.lookup_cons]
          cases hk : k == k₀ with
          | true =>
              have hkk : k = k₀ := eq_of_beq hk
              subst hkk
              simp [hc]
          | false => simpa using ih k

theorem lookup_merge_filter (d : List (String × JVal)) :
    ∀ (c : List (String × JVal)) (k : String),
      (c.filter (fun kv => ((d.lookup kv.1).isNone))).lookup k =
        match d.lookup k with
        | some _ => none
        | none => c.lookup k := by
  intro c
  induction c with
  | nil => intro k; cases d.lookup k <;> rfl
  | cons kv c' ih =>
      intro k
      obtain ⟨k₁, v₁⟩ := kv
      rw [List.filter_cons]
      cases hk : k == k₁ with
      | true =>
          have hkk : k = k₁ := eq_of_beq hk
          subst hkk
          cases hd : d.lookup k with
          | some w =>
              rw [if_neg (by simp [hd])]
              simpa [hd] using ih k
          | none =>
              rw [if_pos (by simp [hd])]
              simp [hd, List.lookup_cons, hk]
      | false =>
          have hres : (c'.filter
              (fun kv => ((d.lookup kv.1).isNone))).lookup k =
              match d.lookup k with
              | some _ => none
              | none => c'.lookup k := ih k
          by_cases hp : (d.lookup k₁).isNone = true
          · rw [if_pos hp, List.lookup_cons]
            rw [hk]
            rw [List.lookup_cons, hk] 
            exact hres
          · rw [if_neg hp, List.lookup_cons, hk]
            exact hres

theorem flipFirst_flipFirst (data : String) :
    ∀ l : List Clip, flipFirst data (flipFirst data l) = l := by
  intro l
  induction l with
  | nil => rfl
  | cons c rest ih =>
      by_cases h : c.data = data
      · obtain ⟨ct, dt, tm, pn⟩ := c
        simp only [Clip.data] at h
        subst h
        simp [flipFirst]
      · simp [flipFirst, h, ih]

/-- C4: the claim (and the code's own log message) says the interceptor
gives up after exactly 10 failed tap-install attempts with no 11th attempt.
Evaluating the retry loop with every `CGEventTapCreate` call failing shows
that each of the first ten failures is followed by a 10-second sleep and an
11th install attempt is made before the fatal permission error is raised:
the fatal transition happens after 11 failed attempts, not 10. -/
theorem hotkeyRetry_makes_eleven_attempts :
    hotkeyRetry (fun _ => false) 12 0 =
      [HkEvent.attempt 1, HkEvent.sleepTen, HkEvent.attempt 2, HkEvent.sleepTen,
       HkEvent.attempt 3, HkEvent.sleepTen, HkEvent.attempt 4, HkEvent.sleepTen,
       HkEvent.attempt 5, HkEvent.sleepTen, HkEvent.attempt 6, HkEvent.sleepTen,
       HkEvent.attempt 7, HkEvent.sleepTen, HkEvent.attempt 8, HkEvent.sleepTen,
       HkEvent.attempt 9, HkEvent.sleepTen, HkEvent.attempt 10, HkEvent.sleepTen,
       HkEvent.attempt 11, HkEvent.fatalPermissionDenied] ∧
    (hotkeyRetry (fun _ => false) 12 0).countP
        (fun e => match e with
          | HkEvent.attempt _ => true
          | _ => false) = 11 := by
  constructor <;> rfl

/-- C7 counterexample: a stored configuration whose hotkey object is
missing `modifiers` does NOT get the default modifiers merged in: the
merge `{**default_config, **config}` is shallow, so the partial hotkey
object is taken wholesale and `hotkey.modifiers` is absent from the loaded
configuration, while the claim requires the default
`["command", "option"]` there. -/
theorem load_config_shallow_cex :
    hotkeyField (load_config (some
        [("hotkey", JVal.jobj [("key", JVal.jstr "C")])])) "modifiers" = none ∧
    hotkeyField default_config "modifiers" =
      some (JVal.jarr [JVal.jstr "command", JVal.jstr "option"]) :=
  ⟨rfl, rfl⟩

/-- C7 (amended): loading merges the stored object over the defaults one
top level key at a time: every top-level key present in the stored file
keeps its stored value (including a partial hotkey object taken wholesale,
whose missing subkeys stay missing), every top-level key absent from the
stored file gets its default, unknown extra keys are retained but cannot
affect the known keys (each key's loaded value depends only on that key's
stored binding), and a missing or unparseable file yields exactly the
defaults. -/
theorem load_config_merge_semantics :
    (∀ (c : List (String × JVal)) (k : String),
        (load_config (some c)).lookup k =
          match c.lookup k with
          | some v => some v
          | none => default_config.lookup k) ∧
    load_config none = default_config := by
  refine ⟨?_, rfl⟩
  intro c k
  show (pyDictMerge default_config c).lookup k = _
  unfold pyDictMerge
  rw [List.lookup_append, lookup_merge_map c default_config k,
      lookup_merge_filter default_config c k]
  cases hc : c.lookup k <;> cases hd : default_config.lookup k <;>
    simp [Option.or, Option.getD]

/-- C8: an activation arriving within 200 ms of the previously accepted one
is dropped (the state, hence both the visibility and the debounce
timestamp, is unchanged), while an accepted activation records its time
and flips visibility, and a second activation 100 ms after an accepted one
is dropped — so two activations 100 ms apart produce exactly one visible
toggle. -/
theorem toggle_visibility_debounce :
    (∀ (st : VisState) (now : ℚ), now - st.last_toggle_time < debounceWindow →
        toggle_visibility now st = st) ∧
    (∀ (st : VisState) (t : ℚ), debounceWindow ≤ t - st.last_toggle_time →
        (toggle_visibility t st).visible = !st.visible ∧
        (toggle_visibility t st).last_toggle_time = t ∧
        toggle_visibility (t + 1/10) (toggle_visibility t st) =
          toggle_visibility t st) := by
  constructor
  · intro st now h
    unfold toggle_visibility
    rw [if_pos h]
  · intro st t h
    have h1 : ¬(t - st.last_toggle_time < debounceWindow) := not_lt.mpr h
    have hacc : toggle_visibility t st = ⟨t, !st.visible⟩ := by
      unfold toggle_visibility
      rw [if_neg h1]
    refine ⟨by rw [hacc], by rw [hacc], ?_⟩
    rw [hacc]
    unfold toggle_visibility
    rw [if_pos ?cond]
    case cond =>
      show t + 1 / 10 - t < debounceWindow
      unfold debounceWindow
      norm_num

/-- C9: for a history containing an entry with the given payload key,
applying `toggle_pin` twice with that key restores the history exactly
(hence the matching entry's pinned state), and the pinned subset is
persisted by both applications (two `save_pinned` writes are appended,
one per call, each writing the pinned subset current at that call). -/
theorem toggle_pin_twice_restores (data : String) (st : HistSt)
    (h : ∃ c ∈ st.items, c.data = data) :
    (toggle_pin data (toggle_pin data st)).items = st.items ∧
    (toggle_pin data (toggle_pin data st)).saves =
      st.saves ++ [pinnedOf (flipFirst data st.items), pinnedOf st.items] := by
  clear h
  unfold toggle_pin save_pinned
  simp [flipFirst_flipFirst]

/-- Concrete instantiation of `toggle_pin_twice_restores`: a one-element
history holding `clipTextA`, toggled twice on its payload key. -/
theorem toggle_pin_twice_restores_witness :
    (toggle_pin "text:a" (toggle_pin "text:a" ⟨[clipTextA], []⟩)).items =
      [clipTextA] ∧
    (toggle_pin "text:a" (toggle_pin "text:a" ⟨[clipTextA], []⟩)).saves =
      [] ++ [pinnedOf (flipFirst "text:a" [clipTextA]), pinnedOf [clipTextA]] :=
  toggle_pin_twice_restores "text:a" ⟨[clipTextA], []⟩
    ⟨clipTextA, by decide, by decide⟩

/-- Concrete instantiation of `toggle_visibility_debounce`: from a state
last toggled at time 0, an activation at 0.1 s is dropped; an activation
at 1 s flips visibility and one 0.1 s later is dropped. -/
theorem toggle_visibility_debounce_witness :
    toggle_visibility (1/10) ⟨0, false⟩ = ⟨0, false⟩ ∧
    (toggle_visibility 1 ⟨0, false⟩).visible = !false ∧
    toggle_visibility (1 + 1/10) (toggle_visibility 1 ⟨0, false⟩) =
      toggle_visibility 1 ⟨0, false⟩ :=
  ⟨toggle_visibility_debounce.1 ⟨0, false⟩ (1/10)
      (by unfold debounceWindow; norm_num),
   (toggle_visibility_debounce.2 ⟨0, false⟩ 1
      (by unfold debounceWindow; norm_num)).1,
   (toggle_visibility_debounce.2 ⟨0, false⟩ 1
      (by unfold debounceWindow; norm_num)).2.2⟩

/-- C3: for every configured chord and every observed key-down event, the
callback emits the activation iff the event's key code equals the
configured key code and the observed flag mask contains every bit of the
configured modifier mask (superset); a firing event is suppressed
(`None` returned) and a non-firing event is passed through unmodified.
In particular the chord `{key=V, modifiers={command, option}}` fires on
flags `command|option` and `command|option|shift` but not on `command`
alone. -/
theorem hotkey_callback_superset_match :
    (∀ (cfg : Hotkey) (ev : KeyEvent), ev.etype = kCGEventKeyDown →
        (((hotkey_callback cfg ev).1 = true ↔
            (ev.keycode = configKeycode cfg ∧
             ∀ i, (configMask cfg).testBit i = true →
               ev.flags.testBit i = true)) ∧
         ((hotkey_callback cfg ev).1 = true →
           (hotkey_callback cfg ev).2 = none) ∧
         ((hotkey_callback cfg ev).1 = false →
           (hotkey_callback cfg ev).2 = some ev))) ∧
    hotkey_callback ⟨"V", ["command", "option"]⟩
        ⟨kCGEventKeyDown, 9,
         kCGEventFlagMaskCommand ||| kCGEventFlagMaskAlternate⟩ =
      (true, none) ∧
    hotkey_callback ⟨"V", ["command", "option"]⟩
        ⟨kCGEventKeyDown, 9,
         kCGEventFlagMaskCommand ||| kCGEventFlagMaskAlternate |||
           kCGEventFlagMaskShift⟩ = (true, none) ∧
    hotkey_callback ⟨"V", ["command", "option"]⟩
        ⟨kCGEventKeyDown, 9, kCGEventFlagMaskCommand⟩ =
      (false, some ⟨kCGEventKeyDown, 9, kCGEventFlagMaskCommand⟩) := by
  refine ⟨?_, by decide, by decide, by decide⟩
  intro cfg ev he
  unfold hotkey_callback
  by_cases hc : ev.etype = kCGEventKeyDown ∧ ev.keycode = configKeycode cfg ∧
      ev.flags &&& configMask cfg = configMask cfg
  · rw [if_pos hc]
    refine ⟨?_, fun _ => rfl, fun hfalse => absurd hfalse (by simp)⟩
    simp only [true_iff]
    exact ⟨hc.2.1, (land_eq_iff_all_bits ev.flags (configMask cfg)).mp hc.2.2⟩
  · rw [if_neg hc]
    refine ⟨?_, fun htrue => absurd htrue (by simp), fun _ => rfl⟩
    simp only [Bool.false_eq_true, false_iff]
    intro hmatch
    exact hc ⟨he, hmatch.1,
      (land_eq_iff_all_bits ev.flags (configMask cfg)).mpr hmatch.2⟩

/-- Concrete instantiation of `hotkey_callback_superset_match`: the match
criterion evaluated for the default chord on the exact-flags event. -/
theorem hotkey_callback_superset_match_witness :
    (hotkey_callback ⟨"V", ["command", "option"]⟩
        ⟨kCGEventKeyDown, 9,
         kCGEventFlagMaskCommand ||| kCGEventFlagMaskAlternate⟩).1 = true ↔
      (9 = configKeycode ⟨"V", ["command", "option"]⟩ ∧
       ∀ i, (configMask ⟨"V", ["command", "option"]⟩).testBit i = true →
         (kCGEventFlagMaskCommand ||| kCGEventFlagMaskAlternate).testBit i =
           true) :=
  (hotkey_callback_superset_match.1 ⟨"V", ["command", "option"]⟩
      ⟨kCGEventKeyDown, 9,
       kCGEventFlagMaskCommand ||| kCGEventFlagMaskAlternate⟩ rfl).1

/-- C5: over any sequence of clipboard samples, no two consecutive emitted
change events carry equal payloads; a sample whose normalized item equals
the current `last_content` emits nothing and leaves the state unchanged;
and an emission sets `last_content` to the emitted payload. -/
theorem watcher_dedup_spec :
    (∀ (last : String) (samples : List Snapshot),
        List.Chain' (fun a b => a.data ≠ b.data) (watcherRun last samples).2) ∧
    (∀ (last : String) (s : Snapshot), sampleItem s = last →
        watcherStep last s = (last, none)) ∧
    (∀ (last : String) (s : Snapshot) (e : EmittedEvent),
        (watcherStep last s).2 = some e → (watcherStep last s).1 = e.data) := by
  refine ⟨fun last samples => (watcherRun_chain samples last).1, ?_, ?_⟩
  · intro last s hsame
    apply watcherStep_skip
    intro hcond
    exact hcond.2 hsame
  · intro last s e he
    by_cases hc : sampleItem s ≠ "" ∧ sampleItem s ≠ last
    · rw [watcherStep_emit last s hc] at he ⊢
      rw [Option.some.injEq] at he
      rw [← he]
    · rw [watcherStep_skip last s hc] at he
      exact absurd he (by simp)

/-- Concrete instantiation of `watcher_dedup_spec`: re-sampling the same
text payload emits nothing, and an emitted event's payload becomes the new
`last_content`. -/
theorem watcher_dedup_spec_witness :
    watcherStep "text:a" ⟨none, "a", "10:00"⟩ = ("text:a", none) ∧
    (watcherStep "" ⟨none, "b", "10:01"⟩).1 =
      (⟨"text", "text:b", "10:01"⟩ : EmittedEvent).data :=
  ⟨watcher_dedup_spec.2.1 "text:a" ⟨none, "a", "10:00"⟩ rfl,
   watcher_dedup_spec.2.2 "" ⟨none, "b", "10:01"⟩ ⟨"text", "text:b", "10:01"⟩
     rfl⟩

/-- C6 counterexample: the claim says a non-empty bitmap whose PNG
encoding produces no bytes yields `None` and emits no change event; but
the code builds the item `"image:" + b64encode(b"")`, i.e. the non-empty
string `"image:"`, which passes the `if item` truthiness test, so a change
event with payload `"image:"` IS emitted (here from the initial empty
`last_content`). -/
theorem empty_png_encoding_emits_event :
    (watcherStep "" ⟨some [], "", "12:00"⟩).2 =
      some ⟨"image", "image:", "12:00"⟩ := rfl

/-- C6 (amended): for a snapshot whose non-empty bitmap encodes to zero
PNG bytes, the normalized item is the bare prefix `"image:"` (not `None`);
a change event carrying that payload is emitted whenever it differs from
`last_content` (becoming the new `last_content`), and is suppressed only
when `last_content` is already `"image:"`; the poll loop continues without
crashing either way. -/
theorem empty_png_encoding_behavior (st : String) (s : Snapshot)
    (himg : s.image = some []) :
    sampleItem s = "image:" ∧
    (st ≠ "image:" →
      watcherStep st s = ("image:", some ⟨"image", "image:", s.time⟩)) ∧
    (st = "image:" → watcherStep st s = (st, none)) := by
  have h1 : sampleItem s = "image:" := by
    unfold sampleItem
    rw [himg]
    rfl
  refine ⟨h1, ?_, ?_⟩
  · intro hne
    have hcond : sampleItem s ≠ "" ∧ sampleItem s ≠ st := by
      rw [h1]
      exact ⟨by decide, fun hh => hne hh.symm⟩
    rw [watcherStep_emit st s hcond, h1]
    have hsw : strStartsWith ("image:") ("image:") = true := rfl
    rw [hsw]
    rfl
  · intro heq
    apply watcherStep_skip
    rw [h1, heq]
    intro hcond
    exact hcond.2 rfl

/-- Concrete instantiation of `empty_png_encoding_behavior`: the failing
encoding still produces an emitted event from a fresh watcher state. -/
theorem empty_png_encoding_behavior_witness :
    sampleItem ⟨some [], "", "12:00"⟩ = "image:" ∧
    watcherStep "text:x" ⟨some [], "", "12:00"⟩ =
      ("image:", some ⟨"image", "image:", "12:00"⟩) :=
  ⟨(empty_png_encoding_behavior "text:x" ⟨some [], "", "12:00"⟩ rfl).1,
   (empty_png_encoding_behavior "text:x" ⟨some [], "", "12:00"⟩ rfl).2.1
     (by intro hh; exact absurd hh (by decide))⟩

/-- C1: inserting a fresh non-empty entry into a history with pairwise
distinct payloads (the history invariant) and then running the eviction
block only ever removes unpinned entries (the pinned sublist is preserved
exactly), removes them from the tail of arrival order (the surviving
unpinned entries are a prefix of the unpinned arrival order), removes one
at a time until the total count equals `max_items` or no unpinned entries
remain (the final count is `max(pinned_count, max_items)` when over the
cap, and unchanged otherwise), so after any insert the total count exceeds
`max_items` only if the pinned count exceeds `max_items`. -/
theorem handle_insert_eviction (maxItems : Nat) (items : List Clip) (clip : Clip)
    (hnd : (clip :: items).Pairwise (fun a b => a.data ≠ b.data))
    (hne : clip.data ≠ "") :
    pinnedOf (handle_clipboard_change maxItems items clip) =
      pinnedOf (clip :: items) ∧
    (handle_clipboard_change maxItems items clip).Sublist (clip :: items) ∧
    ((clip :: items).length ≤ maxItems →
      handle_clipboard_change maxItems items clip = clip :: items) ∧
    ((clip :: items).length > maxItems →
      (handle_clipboard_change maxItems items clip).length =
        Nat.max ((pinnedOf (clip :: items)).length) maxItems) ∧
    ((clip :: items).length > maxItems →
      (handle_clipboard_change maxItems items clip).length = maxItems ∨
        unpinnedOf (handle_clipboard_change maxItems items clip) = []) ∧
    ((handle_clipboard_change maxItems items clip).length > maxItems →
      maxItems < (pinnedOf (handle_clipboard_change maxItems items clip)).length) ∧
    (∃ k, unpinnedOf (handle_clipboard_change maxItems items clip) =
      (unpinnedOf (clip :: items)).take k) := by
  have hforall : ∀ b ∈ items, clip.data ≠ b.data := (List.pairwise_cons.mp hnd).1
  have hdup : items.any (fun i => i.data = clip.data) = false := by
    rw [List.any_eq_false]
    intro x hx
    simp only [decide_eq_true_eq]
    exact fun hh => hforall x hx hh.symm
  have hred : handle_clipboard_change maxItems items clip =
      evictIfNeeded maxItems (clip :: items) := by
    unfold handle_clipboard_change
    rw [if_neg hne, hdup]
    simp
  have hnodup : (clip :: items).Nodup :=
    hnd.imp (fun hab heq => hab (congrArg Clip.data heq))
  rw [hred]
  unfold evictIfNeeded
  by_cases hlen : (clip :: items).length > maxItems
  · rw [if_pos hlen]
    have hpart := pinned_add_unpinned_length (clip :: items)
    have hint : ((unpinnedOf (clip :: items)).length : Int) >
        (maxItems : Int) - ((pinnedOf (clip :: items)).length : Int) := by
      omega
    rw [if_pos hint]
    have hrlnodup : ((unpinnedOf (clip :: items)).reverse).Nodup := by
      unfold unpinnedOf
      exact List.nodup_reverse.mpr (hnodup.filter (fun c => !c.pinned))
    have hrlmem : ∀ r ∈ (unpinnedOf (clip :: items)).reverse,
        r ∈ clip :: items := by
      intro r hr
      rw [List.mem_reverse] at hr
      exact (List.mem_filter.mp hr).1
    have hrlunp : ∀ r ∈ (unpinnedOf (clip :: items)).reverse,
        r.pinned = false := by
      intro r hr
      rw [List.mem_reverse] at hr
      have := (List.mem_filter.mp hr).2
      simpa using this
    have hpin := evictLoop_pinnedOf maxItems
      ((unpinnedOf (clip :: items)).reverse) (clip :: items) hrlunp
    have hlen2 := evictLoop_length maxItems
      ((unpinnedOf (clip :: items)).reverse) (clip :: items) hrlnodup hrlmem
    rw [List.length_reverse] at hlen2
    obtain ⟨k, hk, htake⟩ := evictLoop_unpinned_take maxItems
      ((unpinnedOf (clip :: items)).reverse) (clip :: items) hnodup
      (by rw [List.reverse_reverse])
    rw [List.reverse_reverse] at htake
    have hlen4 : (evictLoop maxItems ((unpinnedOf (clip :: items)).reverse)
        (clip :: items)).length =
        Nat.max ((pinnedOf (clip :: items)).length) maxItems := by
      rw [hlen2]
      simp only [Nat.max_def, Nat.min_def]
      split_ifs <;> omega
    refine ⟨hpin,
      evictLoop_sublist maxItems ((unpinnedOf (clip :: items)).reverse)
        (clip :: items), ?_, fun _ => hlen4, ?_, ?_, ⟨k, htake⟩⟩
    · intro hle
      omega
    · intro _
      by_cases hq : (pinnedOf (clip :: items)).length ≤ maxItems
      · left
        rw [hlen4]
        exact Nat.max_eq_right hq
      · right
        have hup := pinned_add_unpinned_length
          (evictLoop maxItems ((unpinnedOf (clip :: items)).reverse)
            (clip :: items))
        have hpl : (pinnedOf (evictLoop maxItems
            ((unpinnedOf (clip :: items)).reverse) (clip :: items))).length =
            (pinnedOf (clip :: items)).length := by rw [hpin]
        have hmax : (evictLoop maxItems ((unpinnedOf (clip :: items)).reverse)
            (clip :: items)).length = (pinnedOf (clip :: items)).length := by
          rw [hlen4]
          exact Nat.max_eq_left (Nat.le_of_lt (Nat.lt_of_not_le hq))
        apply List.length_eq_zero.mp
        omega
    · intro hgt
      rw [hpin]
      rw [hlen4] at hgt
      simp only [Nat.max_def] at hgt
      split_ifs at hgt <;> omega
  · rw [if_neg hlen]
    exact ⟨rfl, List.Sublist.refl (clip :: items), fun _ => rfl,
      fun hgt => absurd hgt hlen, fun hgt => absurd hgt hlen,
      fun hgt => absurd hgt hlen,
      ⟨(unpinnedOf (clip :: items)).length, (List.take_length _).symm⟩⟩

/-- Concrete instantiation of `handle_insert_eviction`: `max_items = 1`,
history `["text:a"]`, inserting `"text:b"` evicts down to the cap. -/
theorem handle_insert_eviction_witness :
    ([clipTextB, clipTextA].Pairwise (fun a b => a.data ≠ b.data)) ∧
    clipTextB.data ≠ "" ∧
    (handle_clipboard_change 1 [clipTextA] clipTextB).length =
      Nat.max (pinnedOf [clipTextB, clipTextA]).length 1 :=
  ⟨by decide, by decide,
   (handle_insert_eviction 1 [clipTextA] clipTextB (by decide)
       (by decide)).2.2.2.1 (by decide)⟩

/-- C2: inserting an entry whose payload already occurs anywhere in the
history is a no-op (the history is returned unchanged, so size and order
are untouched); otherwise a non-empty entry is prepended to the front of
the arrival order and only then is the eviction block applied — in
particular, when the resulting count is within `max_items` the result is
exactly the prepended list. -/
theorem handle_duplicate_noop (maxItems : Nat) (items : List Clip) (clip : Clip) :
    (items.any (fun i => i.data = clip.data) = true →
      handle_clipboard_change maxItems items clip = items) ∧
    (clip.data ≠ "" → items.any (fun i => i.data = clip.data) = false →
      handle_clipboard_change maxItems items clip =
        evictIfNeeded maxItems (clip :: items)) ∧
    (clip.data ≠ "" → items.any (fun i => i.data = clip.data) = false →
      (clip :: items).length ≤ maxItems →
      handle_clipboard_change maxItems items clip = clip :: items) := by
  refine ⟨?_, ?_, ?_⟩
  · intro hdup
    unfold handle_clipboard_change
    by_cases h0 : clip.data = ""
    · rw [if_pos h0]
    · rw [if_neg h0, hdup]
      simp
  · intro hne hdup
    unfold handle_clipboard_change
    rw [if_neg hne, hdup]
    simp
  · intro hne hdup hle
    unfold handle_clipboard_change
    rw [if_neg hne, hdup]
    simp only [Bool.false_eq_true, if_false]
    unfold evictIfNeeded
    rw [if_neg (Nat.not_lt.mpr hle)]

/-- Concrete instantiation of `handle_duplicate_noop`: re-inserting
`"text:a"` is a no-op; inserting fresh `"text:b"` under the cap prepends. -/
theorem handle_duplicate_noop_witness :
    handle_clipboard_change 50 [clipTextA] clipTextA = [clipTextA] ∧
    handle_clipboard_change 50 [clipTextA] clipTextB =
      [clipTextB, clipTextA] :=
  ⟨(handle_duplicate_noop 50 [clipTextA] clipTextA).1 (by decide),
   (handle_duplicate_noop 50 [clipTextA] clipTextB).2.2 (by decide)
     (by decide) (by decide)⟩

/-- C10: when every existing entry is pinned and the pinned count is at
least `max_items`, inserting a fresh unpinned non-empty entry evicts the
newly inserted entry itself: the only unpinned entry is the new head, the
eviction loop removes it, and the history ends up equal to the original
pinned set. -/
theorem pinned_full_insert_self_evicts (maxItems : Nat) (items : List Clip)
    (clip : Clip)
    (hall : ∀ c ∈ items, c.pinned = true)
    (hge : maxItems ≤ items.length)
    (hclip : clip.pinned = false)
    (hne : clip.data ≠ "")
    (hdup : items.any (fun i => i.data = clip.data) = false) :
    handle_clipboard_change maxItems items clip = items := by
  have hred : handle_clipboard_change maxItems items clip =
      evictIfNeeded maxItems (clip :: items) := by
    unfold handle_clipboard_change
    rw [if_neg hne, hdup]
    simp
  rw [hred]
  have hunp : unpinnedOf (clip :: items) = [clip] := by
    unfold unpinnedOf
    rw [List.filter_cons, if_pos (by simp [hclip])]
    have hnil : items.filter (fun c => !c.pinned) = [] := by
      rw [List.filter_eq_nil_iff]
      intro c hc
      simp [hall c hc]
    rw [hnil]
  have hpin : pinnedOf (clip :: items) = items := by
    unfold pinnedOf
    rw [List.filter_cons, if_neg (by simp [hclip])]
    rw [List.filter_eq_self.mpr (fun c hc => by simp [hall c hc])]
  have hlen : (clip :: items).length > maxItems := by
    simp only [List.length_cons]
    omega
  unfold evictIfNeeded
  rw [if_pos hlen, hunp, hpin]
  rw [if_pos (by simp only [List.length_singleton]; omega)]
  show evictLoop maxItems [clip] (clip :: items) = items
  simp only [evictLoop]
  rw [if_pos hlen, List.erase_cons_head]

/-- Concrete instantiation of `pinned_full_insert_self_evicts`: two pinned
entries at `max_items = 2`; the fresh unpinned insert is evicted again. -/
theorem pinned_full_insert_self_evicts_witness :
    handle_clipboard_change 2 [clipPinP, clipPinQ] clipTextA =
      [clipPinP, clipPinQ] :=
  pinned_full_insert_self_evicts 2 [clipPinP, clipPinQ] clipTextA
    (by decide) (by decide) (by decide) (by decide) (by decide)
